import Mathlib

/-!
Shallow embedding of the record-lock manager, attribute cleaning engine and
record access layer of the orphaned-wells-ui-server backend
(src/app/internal/data_manager.py and src/app/internal/util.py), together with
proofs settling the specification claims about them.

Python dictionaries are embedded as Lean structures; a field whose key may be
absent from the dict is embedded as an `Option` (with `none` = key absent).
Python `None` values are embedded as `Val.null`.  Timestamps (`time.time()`)
are embedded as natural numbers; only their ordering and differences matter.
-/

namespace OWUI

/-! ## Record Lock Manager (src/app/internal/data_manager.py, lines 32-112)

`self.db.locked_records` is embedded as a list of lock documents, in insertion
order.  `find` returns the matching documents in order (the Python code takes
the first one), `delete_many` removes every matching document, and
`update_one(query, {"$set": data}, upsert=True)` replaces the first matching
document (all of its fields are in `data`) or appends a new one. -/

/-- Embeds `self.lock_duration = 120` (seconds), set in `DataManager.__init__`. -/
def lock_duration : Nat := 120

/-- One document of the `locked_records` collection:
`{"record_id": ..., "user": ..., "timestamp": ...}`. -/
structure Lock where
  record_id : String
  user : String
  timestamp : Nat
deriving Repr, DecidableEq

abbrev LockStore := List Lock

/-- Embeds `self.db.locked_records.update_one({"record_id": r}, {"$set": data}, upsert=True)`
where `data` carries all three fields: replace the first document matching the
query, or insert a new document if none matches. -/
def updateOneUpsertLock (r u : String) (ts : Nat) : LockStore → LockStore
  | [] => [⟨r, u, ts⟩]
  | l :: rest =>
    if l.record_id = r then ⟨r, u, ts⟩ :: rest
    else l :: updateOneUpsertLock r u ts rest

/-- Python truthiness of an optional string argument (`None` and `""` are falsy). -/
def pyTruthyStr : Option String → Bool
  | none => false
  | some s_ => s_ ≠ ""

/-- Embeds `DataManager.releaseRecord(record_id=None, user=None)`:
`if record_id: delete_many({"record_id": record_id}) elif user: delete_many({"user": user})`. -/
def releaseRecord (rid usr : Option String) (s_ : LockStore) : LockStore :=
  if pyTruthyStr rid then s_.filter (fun l => l.record_id ≠ rid.getD "")
  else if pyTruthyStr usr then s_.filter (fun l => l.user ≠ usr.getD "")
  else s_

/-- Embeds `DataManager.lockRecord(record_id, user, release_previous_record=True)`:
optionally release every lock held by `user`, then upsert
`{"user": user, "record_id": record_id, "timestamp": time.time()}` keyed by
`record_id`.  `now` stands for `time.time()`. -/
def lockRecord (record_id user : String) (now : Nat)
    (release_previous_record : Bool) (s_ : LockStore) : LockStore :=
  let s1 := if release_previous_record then releaseRecord none (some user) s_ else s_
  updateOneUpsertLock record_id user now s1

/-- Embeds `DataManager.tryLockingRecord(record_id, user)`.  Returns the Python return
value together with the resulting lock store.  The Python loop over the find
cursor keeps the first matching document. -/
def tryLockingRecord (record_id user : String) (now : Nat) (s_ : LockStore) :
    Bool × LockStore :=
  match s_.find? (fun l => l.record_id = record_id) with
  | none => (true, lockRecord record_id user now true s_)
  | some locked_record_document =>
    if locked_record_document.user = user then
      (true, lockRecord record_id user now false s_)
    else if locked_record_document.timestamp + lock_duration < now then
      (true, lockRecord record_id user now true s_)
    else
      (false, s_)

/-- The lock store holds at most one lock document per `record_id`. -/
def atMostOneLockPer (s_ : LockStore) : Prop :=
  ∀ r : String, (s_.filter (fun l => l.record_id = r)).length ≤ 1

/-! ## Attribute model (src/app/internal/util.py)

Attribute dictionaries are embedded as `Attribute`: a scalar core (`AttrCore`)
plus the optional `subattributes` list (`none` = Python `None`).  Dict keys that
may be *absent* (`cleaned`, `cleaning_error`, `uncleaned_value`,
`last_cleaned`) are `Option`-valued in the core, `none` meaning the key is not
in the dict.  Python scalar values (strings, numbers, `None`, booleans) are
embedded as `Val`. -/

inductive Val where
  | null
  | str (s_ : String)
  | int (n : Int)
  | bool (b : Bool)
deriving Repr, DecidableEq

structure AttrCore where
  key : String
  ai_confidence : Val
  confidence : Val
  raw_text : Val
  text_value : Val
  value : Val
  normalized_vertices : Val
  normalized_value : Val
  isSubattribute : Bool
  edited : Bool
  page : Val
  cleaned : Option Bool
  cleaning_error : Option Val
  uncleaned_value : Option Val
  last_cleaned : Option Val
  topLevelAttribute : Option String
deriving Repr, DecidableEq

inductive Attribute where
  | mk (core : AttrCore) (subattributes : Option (List Attribute))

def Attribute.core : Attribute → AttrCore
  | .mk c _ => c

def Attribute.subattributes : Attribute → Option (List Attribute)
  | .mk _ s_ => s_

/-- Processor schema entry `{name, page_order_sort, cleaning_function, ...}`;
`page_order_sort` absent ↦ `none` (sorted as `float("inf")`),
`cleaning_function` absent ↦ `none`. -/
structure ProcAttrCore where
  name : String
  page_order_sort : Option Nat
  cleaning_function : Option String
deriving Repr, DecidableEq

inductive ProcessorAttribute where
  | mk (core : ProcAttrCore) (subattributes : Option (List ProcessorAttribute))

def ProcessorAttribute.core : ProcessorAttribute → ProcAttrCore
  | .mk c _ => c

def ProcessorAttribute.subattributes :
    ProcessorAttribute → Option (List ProcessorAttribute)
  | .mk _ s_ => s_

/-- A processor document, as far as the cleaning/sorting code reads it. -/
structure Processor where
  attributes : Option (List ProcessorAttribute)

/-- Python dict with string keys, in insertion order: assignment `d[k] = v`
overwrites in place or appends. -/
abbrev SchemaDict := List (String × ProcessorAttribute)

def dictSet (k : String) (v : ProcessorAttribute) : SchemaDict → SchemaDict
  | [] => [(k, v)]
  | (k', v') :: rest =>
    if k' = k then (k, v) :: rest else (k', v') :: dictSet k v rest

def dictGet (d : SchemaDict) (k : String) : Option ProcessorAttribute :=
  (d.find? (fun p => p.1 = k)).map Prod.snd

def dictHasKey (d : SchemaDict) (k : String) : Bool :=
  (d.find? (fun p => p.1 = k)).isSome

/-- Embeds `util.convert_processor_attributes_to_dict(attributes)`.  (The Python
`if attributes:` / `if subattributes:` guards skip the loops on `None` and on
empty lists; folding over the empty list is the same.) -/
def convert_processor_attributes_to_dict
    (attributes : Option (List ProcessorAttribute)) : SchemaDict :=
  match attributes with
  | none => []
  | some attrs =>
    attrs.foldl (fun d attr =>
      let key := attr.core.name
      let d1 := dictSet key attr d
      match attr.subattributes with
      | none => d1
      | some subs =>
        subs.foldl (fun d2 sub =>
          dictSet (key ++ "::" ++ sub.core.name) sub d2) d1) []

/-- Embeds `util.createNewAttribute(key, value=None, confidence=None,
subattributes=None, page=None, coordinates=None, normalized_value=None,
raw_text=None, text_value=None)`.  Note: the returned dict has *no* `cleaned`,
`cleaning_error`, `uncleaned_value` or `last_cleaned` keys. -/
def createNewAttribute (key : String) (value confidence : Val)
    (subattributes : Option (List Attribute)) (page coordinates
    normalized_value raw_text text_value : Val) : Attribute :=
  Attribute.mk
    { key := key
      ai_confidence := confidence
      confidence := confidence
      raw_text := raw_text
      text_value := text_value
      value := value
      normalized_vertices := coordinates
      normalized_value := normalized_value
      isSubattribute := false
      edited := false
      page := page
      cleaned := none
      cleaning_error := none
      uncleaned_value := none
      last_cleaned := none
      topLevelAttribute := none }
    subattributes

/-- Comparison key of `processor_attributes.sort(key=lambda x:
x.get("page_order_sort", float("inf")))`: a missing key sorts as `+∞`. -/
def pageOrderLe (a b : ProcessorAttribute) : Bool :=
  match a.core.page_order_sort, b.core.page_order_sort with
  | none, none => true
  | none, some _ => false
  | some _, none => true
  | some m, some n => m ≤ n

/-- Stable insertion into a sorted list (model of Python's stable `list.sort`). -/
def insertSorted (le : ProcessorAttribute → ProcessorAttribute → Bool)
    (x : ProcessorAttribute) : List ProcessorAttribute → List ProcessorAttribute
  | [] => [x]
  | y :: rest => if le x y then x :: y :: rest else y :: insertSorted le x rest

/-- Stable sort (model of Python's stable `list.sort`). -/
def stableSort (le : ProcessorAttribute → ProcessorAttribute → Bool) :
    List ProcessorAttribute → List ProcessorAttribute
  | [] => []
  | x :: rest => insertSorted le x (stableSort le rest)

/-- Holds when `pat` is a prefix of `l` (character lists). -/
def startsWithSeq : List Char → List Char → Bool
  | [], _ => true
  | _ :: _, [] => false
  | p :: ps, x :: xs => p = x && startsWithSeq ps xs

/-- Holds when `pat` occurs as a contiguous subsequence of `l` (Python `pat in s_`). -/
def containsSeq (pat : List Char) : List Char → Bool
  | [] => startsWithSeq pat []
  | x :: xs => startsWithSeq pat (x :: xs) || containsSeq pat xs

/-- Embeds `"::" not in attribute_name`: the two-character sequence `::` does not
occur in the name. -/
def noCompositeKey (name : String) : Bool :=
  !(containsSeq "::".toList name.toList)

/-- One iteration of the matching loop of `sortRecordAttributes`: append every
record attribute whose `key` equals the processor attribute's `name`, or — if
there is none — synthesize `createNewAttribute(key=attribute_name)` (Python
defaults) and force `requires_db_update`.  Composite (`"::"`) names are
skipped. -/
def sortStep (attributes : List Attribute) (acc : List Attribute × Bool)
    (each : ProcessorAttribute) : List Attribute × Bool :=
  let attribute_name := each.core.name
  if noCompositeKey attribute_name then
    let found_ := attributes.filter (fun item => item.core.key = attribute_name)
    if found_.length = 0 then
      (acc.1 ++ [createNewAttribute attribute_name .null .null none
        .null .null .null .null .null], true)
    else
      (acc.1 ++ found_, acc.2)
  else acc

/-- Embeds `util.sortRecordAttributes(attributes, processor, keep_all_attributes=False)`.
Returns `(sorted_attributes, requires_db_update)`.  Note
`requires_db_update = len(processor_attributes) > 0` *before* the matching
loop: the flag starts `True` whenever the processor schema is non-empty, not
only when a placeholder is synthesized. -/
def sortRecordAttributes (attributes : List Attribute)
    (processor : Option Processor) (keep_all_attributes : Bool) :
    List Attribute × Bool :=
  match processor with
  | none => (attributes, false)
  | some proc =>
    match proc.attributes with
    | none => (attributes, false)
    | some pa0 =>
      let processor_attributes := stableSort pageOrderLe pa0
      let requires_db_update0 : Bool := processor_attributes.length > 0
      let processor_attributes_dict :=
        convert_processor_attributes_to_dict (some processor_attributes)
      let res := processor_attributes.foldl (sortStep attributes)
        ([], requires_db_update0)
      if keep_all_attributes then
        (res.1 ++ attributes.filter
          (fun attr => ¬ dictHasKey processor_attributes_dict attr.core.key),
          res.2)
      else res

/-! ## Cleaning engine (src/app/internal/util.py, lines 329-382)

`CLEANING_FUNCTIONS` is a fixed registry of value transforms imported from the
external `ogrre_data_cleaning` library; it is embedded as an abstract lookup
`reg : String → Option (Val → Except String Val)`, where `Except.error e`
models the Python function raising an exception with message `e`.  `now`
stands for `time.time()` at the `last_cleaned` stamp. -/

abbrev CleanReg := String → Option (Val → Except String Val)

mutual

/-- Embeds `util.cleanRecordAttribute(processor_attributes, attribute,
subattributeKey=None)`, returning the (mutated) attribute together with the
Python return value.  Control flow mirrors the source: an empty/absent
cleaning-function name sets `cleaned=False` and returns at once; a successful
clean returns at once; only the unregistered-name and exception paths reach the
subattribute recursion. -/
def cleanRecordAttribute (reg : CleanReg) (now : Nat)
    (processor_attributes : SchemaDict) (attr0 : Attribute)
    (subattributeKey : Option String) : Attribute × Bool :=
  match attr0 with
  | .mk core subsOpt =>
    let attribute_key := match subattributeKey with
      | some k => k
      | none => core.key
    let unclean_val := core.value
    match dictGet processor_attributes attribute_key with
    | none => (.mk core subsOpt, false)
    | some attribute_schema =>
      match attribute_schema.core.cleaning_function with
      | none => (.mk { core with cleaned := some false } subsOpt, false)
      | some name =>
        if name = "" then
          (.mk { core with cleaned := some false } subsOpt, false)
        else
          match reg name with
          | some cleaning_function =>
            match cleaning_function unclean_val with
            | .ok cleaned_val =>
              (.mk { core with
                  value := cleaned_val
                  normalized_value := cleaned_val
                  uncleaned_value := some unclean_val
                  cleaned := some true
                  cleaning_error := some (.bool false)
                  last_cleaned := some (.int now) } subsOpt, true)
            | .error e =>
              let newCore := { core with
                cleaning_error := some (.str e), cleaned := some false }
              match subsOpt with
              | none => (.mk newCore none, false)
              | some subs =>
                (.mk newCore (some (cleanSubList reg now processor_attributes
                  attribute_key subs)), false)
          | none =>
            match subsOpt with
            | none => (.mk core none, false)
            | some subs =>
              (.mk core (some (cleanSubList reg now processor_attributes
                attribute_key subs)), false)

/-- The loop `for subattribute in subattributes:
cleanRecordAttribute(..., subattributeKey=f"{attribute_key}::{subattribute['key']}")`. -/
def cleanSubList (reg : CleanReg) (now : Nat) (processor_attributes : SchemaDict)
    (attribute_key : String) : List Attribute → List Attribute
  | [] => []
  | sub :: rest =>
    (cleanRecordAttribute reg now processor_attributes sub
      (some (attribute_key ++ "::" ++ sub.core.key))).1 ::
    cleanSubList reg now processor_attributes attribute_key rest

end

/-- A record document, as far as the cleaning / access-layer code reads it. -/
structure RecordDoc where
  id : String
  record_group_id : String
  attributesList : List Attribute
  review_status : Option String
  verification_status : Option Val
  dateCreated : Nat
  image_files : List String
  filename : Option String

/-- Embeds `util.cleanRecords(processor_attributes, documents)`: clean every top-level
attribute of every document in place and return the documents. -/
def cleanRecords (reg : CleanReg) (now : Nat)
    (processor_attributes : SchemaDict) (documents : List RecordDoc) :
    List RecordDoc :=
  documents.map (fun doc =>
    { doc with attributesList := doc.attributesList.map (fun attr =>
        (cleanRecordAttribute reg now processor_attributes attr none).1) })

/-! ### Concrete fixtures used by witnesses and counterexamples -/

/-- A concrete registry: `ok_fn` always returns `"OK"`, `bad_fn` always raises
`"boom"`, anything else is unregistered. -/
def regW : CleanReg := fun n =>
  if n = "ok_fn" then some (fun _ => .ok (.str "OK"))
  else if n = "bad_fn" then some (fun _ => .error "boom")
  else none

def coreW : AttrCore :=
  { key := "k"
    ai_confidence := .null
    confidence := .null
    raw_text := .str "raw"
    text_value := .null
    value := .str "raw"
    normalized_vertices := .null
    normalized_value := .null
    isSubattribute := false
    edited := false
    page := .null
    cleaned := none
    cleaning_error := none
    uncleaned_value := none
    last_cleaned := none
    topLevelAttribute := none }

def attrW : Attribute := .mk coreW none

def entryW : ProcessorAttribute :=
  .mk
    { name := "k"
      page_order_sort := some 1
      cleaning_function := some "ok_fn" } none

def paW : SchemaDict := [("k", entryW)]

def subC5 : Attribute := .mk
  { key := "s"
    ai_confidence := .null
    confidence := .null
    raw_text := .null
    text_value := .null
    value := .str "v"
    normalized_vertices := .null
    normalized_value := .null
    isSubattribute := true
    edited := false
    page := .null
    cleaned := none
    cleaning_error := none
    uncleaned_value := none
    last_cleaned := none
    topLevelAttribute := some "k" } none

def entrySubC5 : ProcessorAttribute :=
  .mk
    { name := "s"
      page_order_sort := none
      cleaning_function := some "ok_fn" } none

def entryTopC5 : ProcessorAttribute :=
  .mk
    { name := "k"
      page_order_sort := some 1
      cleaning_function := some "ok_fn" } (some [entrySubC5])

def paC5 : SchemaDict :=
  convert_processor_attributes_to_dict (some [entryTopC5])

def topC5 : Attribute := .mk coreW (some [subC5])

/-! ## Record Access Layer (src/app/internal/data_manager.py)

The shared database is embedded as `DB`: the collections the claimed code
reads or writes (`records`, `locked_records`, `record_groups`, `processors`,
`projects`).  `getUserRecordGroups(user)` flattens the `record_groups` lists of
the user's projects (via users → default_team → teams → projects); only the
resulting membership set is ever read by the claimed code, so it is embedded
as the map `user_record_groups`.  A raised-and-not-caught Python exception is
an `Except.error`. -/

structure RecordGroup where
  id : String
  name : String
  processorId : String

structure ProcessorDoc where
  google_id : String
  attributes : Option (List ProcessorAttribute)

structure ProjectDoc where
  id : String
  name : String
  record_groups : List String

structure DB where
  records : List RecordDoc
  locked_records : LockStore
  record_groups : List RecordGroup
  processors : List ProcessorDoc
  projects : List ProjectDoc
  user_record_groups : String → List String

/-- Embeds `DataManager.getProcessorByRecordGroupID(rg_id)`: returns
`(google_id, processor_attributes)`, or `None` when any lookup raises
(the whole body is inside `try/except`). -/
def getProcessorByRecordGroupID (db : DB) (rg_id : String) :
    Option (String × Option (List ProcessorAttribute)) :=
  match db.record_groups.find? (fun rg => rg.id = rg_id) with
  | none => none
  | some document =>
    let google_id := document.processorId
    match db.processors.find? (fun p => p.google_id = google_id) with
    | none => none
    | some processor_document => some (google_id, processor_document.attributes)

/-- Embeds `DataManager.getProcessorByRecordID(record_id)`. -/
def getProcessorByRecordID (db : DB) (record_id : String) :
    Option (String × Option (List ProcessorAttribute)) :=
  match db.records.find? (fun r => r.id = record_id) with
  | none => none
  | some document => getProcessorByRecordGroupID db document.record_group_id

/-- Embeds `DataManager.cleanAttribute(attribute, record_id=None, rg_id=None)`:
resolve the processor, convert its attributes to a dict and clean the given
(sub)attribute in place.  Unpacking the `None` returned by a failed processor
lookup raises (`_, processor_attributes = None`), which propagates to the
caller. -/
def cleanAttribute (reg : CleanReg) (now : Nat) (db : DB) (attr : Attribute)
    (record_id : Option String) (rg_id : Option String) :
    Except String Attribute :=
  if record_id = none ∧ rg_id = none then .ok attr
  else
    let lookup := match rg_id with
      | some rid => getProcessorByRecordGroupID db rid
      | none => getProcessorByRecordID db (record_id.getD "")
    match lookup with
    | none => .error "TypeError: cannot unpack non-iterable NoneType object"
    | some (_, processor_attributes) =>
      let pa := convert_processor_attributes_to_dict processor_attributes
      if attr.core.isSubattribute then
        let parentAttribute := (attr.core.topLevelAttribute).getD ""
        let subattributeKey := attr.core.key
        let subattribute_identifier := parentAttribute ++ "::" ++ subattributeKey
        .ok (cleanRecordAttribute reg now pa attr
          (some subattribute_identifier)).1
      else
        .ok (cleanRecordAttribute reg now pa attr none).1

/-- The `new_data` argument of `updateRecord`, as far as the code reads it.
`none` = key absent (for `review_status` it also stands for a present `None`
value: the two are indistinguishable to every `.get` in the code path). -/
structure NewData where
  attributesList : Option (List Attribute)
  review_status : Option String
  verification_status : Option Val
  defective_categories : Option (List Val)
  defective_description : Option Val

/-- The `field_to_clean` argument of `updateRecord`. -/
structure FieldToClean where
  topLevelIndex : Nat
  isSubattribute : Bool
  subIndex : Nat

/-- The `data_update` dict built by `updateRecord` for `update_type != "record"`;
outer `Option` = key present in the `$set` document. -/
structure DataUpdate where
  review_status : Option (Option String)
  attributesList : Option (Option (List Attribute))
  verification_status : Option (Option Val)
  defective_categories : Option (List Val)
  defective_description : Option (Option Val)
  other_key : Option String

def emptyDataUpdate : DataUpdate :=
  { review_status := none
    attributesList := none
    verification_status := none
    defective_categories := none
    defective_description := none
    other_key := none }

/-- Embeds `data_update = {update_type: new_data.get(update_type, None)}`. -/
def initialDataUpdate (t : String) (nd : NewData) : DataUpdate :=
  match t with
  | "attributesList" => { emptyDataUpdate with attributesList := some nd.attributesList }
  | "review_status" => { emptyDataUpdate with review_status := some nd.review_status }
  | "verification_status" => { emptyDataUpdate with verification_status := some nd.verification_status }
  | _ => { emptyDataUpdate with other_key := some t }

/-- The value written by `updateRecord`: either the whole `new_data`
(`update_type == "record"`) or the keyed `data_update` dict. -/
inductive UpdateData where
  | recordWhole (nd : NewData)
  | fields (du : DataUpdate)

/-- The subattribute-reset loop body of `DataManager.resetRecord`
(`subattribute.get("ai_confidence", None)` for `confidence`). -/
def resetSubattribute (a : Attribute) : Attribute :=
  .mk
    { a.core with
      value := a.core.raw_text
      confidence := a.core.ai_confidence
      edited := false
      cleaning_error := some (.bool false)
      uncleaned_value := some .null
      cleaned := some false
      last_cleaned := some .null }
    a.subattributes

/-- The top-level-attribute reset loop body of `DataManager.resetRecord`:
reset the scalar fields, and — when `subattributes` is not `None` — reset each
subattribute (one level only). -/
def resetAttribute (a : Attribute) : Attribute :=
  let core' :=
    { a.core with
      value := a.core.raw_text
      confidence := a.core.ai_confidence
      edited := false
      cleaning_error := some (.bool false)
      uncleaned_value := some .null
      cleaned := some false
      last_cleaned := some .null }
  match a.subattributes with
  | none => .mk core' none
  | some subs => .mk core' (some (subs.map resetSubattribute))

/-- Embeds `DataManager.resetRecord(record_id, record_data, user)`: resets every
attribute (and subattribute) of `record_data["attributesList"]` and returns
`{"review_status": "unreviewed", "attributesList": ..., "verification_status": None}`.
Reading a missing `attributesList` key raises. -/
def resetRecord (record_data : NewData) : Except String DataUpdate :=
  match record_data.attributesList with
  | none => .error "KeyError: attributesList"
  | some record_attributes =>
    .ok { review_status := some (some "unreviewed")
          attributesList := some (some (record_attributes.map resetAttribute))
          verification_status := some (some .null)
          defective_categories := none
          defective_description := none
          other_key := none }

/-- The `field_to_clean` block of `updateRecord`: locate the (sub)attribute in
`new_data["attributesList"]` by index and clean it in place via
`cleanAttribute(attributeToClean, record_id=record_id)`; missing keys, `None`
subattribute lists and out-of-range indices raise. -/
def applyFieldToClean (reg : CleanReg) (now : Nat) (db : DB)
    (record_id : String) (nd : NewData) (ftc : FieldToClean) :
    Except String NewData :=
  match nd.attributesList with
  | none => .error "KeyError: attributesList"
  | some attrs =>
    match attrs.get? ftc.topLevelIndex with
    | none => .error "IndexError: list index out of range"
    | some topAttr =>
      if ftc.isSubattribute then
        match topAttr.subattributes with
        | none => .error "TypeError: NoneType is not subscriptable"
        | some subs =>
          match subs.get? ftc.subIndex with
          | none => .error "IndexError: list index out of range"
          | some subAttr =>
            (cleanAttribute reg now db subAttr (some record_id) none).map
              (fun cleaned =>
                let newTop :=
                  Attribute.mk topAttr.core (some (subs.set ftc.subIndex cleaned))
                let newList := attrs.set ftc.topLevelIndex newTop
                { nd with attributesList := some newList })
      else
        (cleanAttribute reg now db topAttr (some record_id) none).map
          (fun cleaned =>
            let newList := attrs.set ftc.topLevelIndex cleaned
            { nd with attributesList := some newList })

/-- Lines 982-993 of `updateRecord`: clean `field_to_clean` if supplied. -/
def updateRecordCleanStep (reg : CleanReg) (now : Nat) (db : DB)
    (record_id : String) (nd : NewData) (ftc : Option FieldToClean) :
    Except String NewData :=
  match ftc with
  | none => .ok nd
  | some f => applyFieldToClean reg now db record_id nd f

/-- Embeds `update_one({"_id": record_id}, {"$set": data_update})` on the records
collection: apply the modelled keys of `data_update` to the first matching
document.  (`defective_categories`/`defective_description` and unmodelled
keys are not fields of `RecordDoc`; no claimed code reads them back.) -/
def applySetToRecord (r : RecordDoc) (du : DataUpdate) : RecordDoc :=
  { r with
    review_status := match du.review_status with
      | some v => v
      | none => r.review_status
    attributesList := match du.attributesList with
      | some (some l) => l
      | _ => r.attributesList
    verification_status := match du.verification_status with
      | some v => v
      | none => r.verification_status }

/-- Embeds the `$set` of the whole `new_data` (the `update_type == "record"` branch);
only present keys are written. -/
def applyNewDataToRecord (r : RecordDoc) (nd : NewData) : RecordDoc :=
  { r with
    attributesList := match nd.attributesList with
      | some l => l
      | none => r.attributesList
    review_status := match nd.review_status with
      | some s_ => some s_
      | none => r.review_status
    verification_status := match nd.verification_status with
      | some v => some v
      | none => r.verification_status }

def updateOneRecord (record_id : String) (du : UpdateData) :
    List RecordDoc → List RecordDoc
  | [] => []
  | r :: rest =>
    if r.id = record_id then
      (match du with
        | .fields d => applySetToRecord r d
        | .recordWhole nd => applyNewDataToRecord r nd) :: rest
    else r :: updateOneRecord record_id du rest

/-- Embeds `DataManager.updateRecord(record_id, new_data, update_type=None,
field_to_clean=None, user_info=None, forceUpdate=False)`.  Returns the Python
return value (`none` = `False`, `some du` = the returned `data_update`)
together with the posterior database.  `user_info` is embedded as the user's
email.  The best-effort previous-state fetch and `recordHistory` audit insert
(lines 1026-1044) touch only the `history` collection, swallow their own
errors and are read by no claimed code, so they are omitted here. -/
def updateRecord (reg : CleanReg) (db : DB) (record_id : String)
    (new_data : NewData) (update_type : Option String)
    (field_to_clean : Option FieldToClean) (user_info : Option String)
    (forceUpdate : Bool) (now : Nat) :
    Except String (Option UpdateData) × DB :=
  if user_info = none ∧ forceUpdate = false then (.ok none, db)
  else
    let lockResult := match user_info with
      | some user => tryLockingRecord record_id user now db.locked_records
      | none => (false, db.locked_records)
    let attained_lock := lockResult.1
    let db1 := { db with locked_records := lockResult.2 }
    if attained_lock || forceUpdate then
      match update_type with
      | none => (.ok none, db1)
      | some ut =>
        if ut = "record" then
          (.ok (some (.recordWhole new_data)),
            { db1 with records :=
              updateOneRecord record_id (.recordWhole new_data) db1.records })
        else
          match updateRecordCleanStep reg now db1 record_id new_data
            field_to_clean with
          | .error e => (.error e, db1)
          | .ok nd1 =>
            let du0 := initialDataUpdate ut nd1
            let duE : Except String DataUpdate :=
              if ut = "attributesList" ∧ nd1.review_status = some "unreviewed"
              then .ok { du0 with review_status := some (some "incomplete") }
              else if ut = "verification_status" ∧
                pyTruthyStr nd1.review_status then
                .ok { du0 with review_status := some nd1.review_status }
              else if ut = "review_status" ∧
                nd1.review_status = some "unreviewed" then
                resetRecord nd1
              else if ut = "review_status" ∧
                nd1.review_status = some "incomplete" then
                .ok { du0 with verification_status := some (some .null) }
              else if ut = "review_status" ∧
                nd1.review_status = some "defective" then
                .ok { du0 with
                  defective_categories :=
                    some (nd1.defective_categories.getD [])
                  defective_description := some nd1.defective_description }
              else .ok du0
            match duE with
            | .error e => (.error e, db1)
            | .ok du =>
              (.ok (some (.fields du)),
                { db1 with records :=
                  updateOneRecord record_id (.fields du) db1.records })
    else (.ok none, db1)

/-- The `attributesList` slot of the document returned by `fetchRecordData`:
either the stored list (untouched when the sort step's `try` fails) or — as
the code actually writes it — the whole `(sorted_attributes,
requires_db_update)` tuple returned by `sortRecordAttributes`. -/
inductive AttrsOut where
  | plain (attrs : List Attribute)
  | tupled (pair : List Attribute × Bool)

/-- The document returned by `fetchRecordData`, restricted to the fields the
claims are about.  (`img_urls`, `project_name`/`project_id`, `recordIndex` and
`previous_id`/`next_id` are also set on the returned dict; they involve only
the external signed-URL collaborator and further read-only queries, never the
lock store, the records collection or `attributesList`, and are omitted.) -/
structure FetchOut where
  id : String
  record_group_id : String
  review_status : Option String
  verification_status : Option Val
  dateCreated : Nat
  attributesList : AttrsOut
  rg_name : String
  rg_id : String

/-- Embeds `DataManager.fetchRecordData(record_id, user_info)`.  Returns the Python
pair `(document, is_locked)` — `(none, none)` both for a missing record and
for an inaccessible one — together with the posterior database.  Note line
759-762 of the source: `sorted_attributes = util.sortRecordAttributes(...)`
binds the *tuple*, which is then assigned to `document["attributesList"]`
unchanged, and `requires_db_update` is never consulted: no corrected
attribute list is written back to the records collection. -/
def fetchRecordData (db : DB) (user : String) (record_id : String)
    (now : Nat) : Except String ((Option FetchOut × Option Bool) × DB) :=
  match db.records.find? (fun r => r.id = record_id) with
  | none => .ok ((none, none), db)
  | some document =>
    let rg_id := document.record_group_id
    let user_record_groups := db.user_record_groups user
    if rg_id ∉ user_record_groups then .ok ((none, none), db)
    else
      let lockRes := tryLockingRecord record_id user now db.locked_records
      let attained_lock := lockRes.1
      let db1 := { db with locked_records := lockRes.2 }
      -- image-URL resolution: external storage collaborator, no shared state
      match db.record_groups.find? (fun rg => rg.id = rg_id) with
      | none => .error "AttributeError: NoneType has no attribute get"
      | some rg =>
        match db.projects.find? (fun p => rg_id ∈ p.record_groups) with
        | none => .error "StopIteration"
        | some _project_document =>
          -- recordIndex (a count) and previous/next ids always succeed:
          -- the record itself is in its group, so the fallback cursors are
          -- never empty
          let sorted : AttrsOut :=
            match db.processors.find?
              (fun p => p.google_id = rg.processorId) with
            | none => .plain document.attributesList
            | some processor_doc =>
              .tupled (sortRecordAttributes document.attributesList
                (some ⟨processor_doc.attributes⟩) false)
          .ok ((some
            { id := document.id
              record_group_id := rg_id
              review_status := document.review_status
              verification_status := document.verification_status
              dateCreated := document.dateCreated
              attributesList := sorted
              rg_name := rg.name
              rg_id := rg_id }, some (!attained_lock)), db1)

/-! ### Fixtures for the access-layer witnesses -/

def ndW : NewData :=
  { attributesList := some [attrW]
    review_status := some "unreviewed"
    verification_status := none
    defective_categories := none
    defective_description := none }

def dbW : DB :=
  { records := []
    locked_records := []
    record_groups := []
    processors := []
    projects := []
    user_record_groups := fun _ => [] }

def entryA : ProcessorAttribute :=
  .mk
    { name := "a"
      page_order_sort := some 1
      cleaning_function := none } none

def attrB : Attribute := .mk
  { key := "b"
    ai_confidence := .null
    confidence := .null
    raw_text := .str "b0"
    text_value := .null
    value := .str "b0"
    normalized_vertices := .null
    normalized_value := .null
    isSubattribute := false
    edited := false
    page := .null
    cleaned := none
    cleaning_error := none
    uncleaned_value := none
    last_cleaned := none
    topLevelAttribute := none } none

def recC8 : RecordDoc :=
  { id := "r1"
    record_group_id := "g1"
    attributesList := [attrB]
    review_status := some "unreviewed"
    verification_status := none
    dateCreated := 3
    image_files := []
    filename := none }

def dbC8 : DB :=
  { records := [recC8]
    locked_records := []
    record_groups := [{ id := "g1", name := "G", processorId := "p1" }]
    processors := [{ google_id := "p1", attributes := some [entryA] }]
    projects := [{ id := "pj", name := "P", record_groups := ["g1"] }]
    user_record_groups := fun _ => ["g1"] }

def dbC9 : DB :=
  { records := [recC8]
    locked_records := []
    record_groups := [{ id := "g1", name := "G", processorId := "p1" }]
    processors := [{ google_id := "p1", attributes := some [entryA] }]
    projects := [{ id := "pj", name := "P", record_groups := ["g1"] }]
    user_record_groups := fun _ => ["other_group"] }

/-! ## Theorems settling the claims, with their supporting lemmas -/

theorem find?_updateOneUpsertLock (r u : String) (ts : Nat) (s_ : LockStore) :
    (updateOneUpsertLock r u ts s_).find? (fun l => l.record_id = r) =
      some ⟨r, u, ts⟩ := by
  induction s_ with
  | nil => simp [updateOneUpsertLock]
  | cons l rest ih =>
    by_cases h : l.record_id = r
    · simp [updateOneUpsertLock, h]
    · simp [updateOneUpsertLock, h, ih]

theorem find?_lockRecord (r u : String) (now : Nat) (rel : Bool) (s_ : LockStore) :
    (lockRecord r u now rel s_).find? (fun l => l.record_id = r) =
      some ⟨r, u, now⟩ := by
  unfold lockRecord
  exact find?_updateOneUpsertLock r u now _

theorem find?_of_tryLockingRecord_true (r u : String) (now : Nat)
    (s_ s' : LockStore) (h : tryLockingRecord r u now s_ = (true, s')) :
    s'.find? (fun l => l.record_id = r) = some ⟨r, u, now⟩ := by
  unfold tryLockingRecord at h
  rcases hf : s_.find? (fun l => l.record_id = r) with _ | doc
  · rw [hf] at h
    cases h
    exact find?_lockRecord r u now true s_
  · rw [hf] at h
    by_cases h1 : doc.user = u
    · simp only [h1, if_true] at h
      cases h
      exact find?_lockRecord r u now false s_
    · simp only [h1, if_false] at h
      by_cases h2 : doc.timestamp + lock_duration < now
      · simp only [h2, if_true] at h
        cases h
        exact find?_lockRecord r u now true s_
      · simp only [h2, if_false] at h
        cases h

theorem filter_updateOneUpsertLock_of_ne (p : Lock → Bool) (r u : String) (ts : Nat)
    (s_ : LockStore) (hnew : p ⟨r, u, ts⟩ = false)
    (hold : ∀ l : Lock, l.record_id = r → p l = false) :
    (updateOneUpsertLock r u ts s_).filter p = s_.filter p := by
  induction s_ with
  | nil => simp [updateOneUpsertLock, hnew]
  | cons l rest ih =>
    by_cases h : l.record_id = r
    · simp [updateOneUpsertLock, h, List.filter, hnew, hold l h]
    · simp only [updateOneUpsertLock, if_neg h, List.filter]
      cases hpl : p l
      · exact ih
      · rw [ih]

theorem filter_updateOneUpsertLock_self (r u : String) (ts : Nat)
    (s_ : LockStore)
    (h : (s_.filter (fun l => l.record_id = r)).length ≤ 1) :
    (updateOneUpsertLock r u ts s_).filter (fun l => l.record_id = r) =
      [⟨r, u, ts⟩] := by
  induction s_ with
  | nil => simp [updateOneUpsertLock]
  | cons l rest ih =>
    by_cases hl : l.record_id = r
    · have hrest : rest.filter (fun l => l.record_id = r) = [] := by
        rw [List.filter_cons_of_pos (by simpa using hl)] at h
        simp only [List.length_cons] at h
        exact List.length_eq_zero.mp (by omega)
      simp [updateOneUpsertLock, hl, hrest]
    · rw [List.filter_cons_of_neg (by simpa using hl)] at h
      simp only [updateOneUpsertLock, if_neg hl]
      rw [List.filter_cons_of_neg (by simpa using hl)]
      exact ih h

theorem atMostOne_filter (q : Lock → Bool) (s_ : LockStore)
    (h : atMostOneLockPer s_) : atMostOneLockPer (s_.filter q) := by
  intro r
  have h1 : List.Sublist ((s_.filter q).filter (fun l => l.record_id = r))
      (s_.filter (fun l => l.record_id = r)) :=
    List.Sublist.filter _ (List.filter_sublist s_)
  exact le_trans h1.length_le (h r)

theorem atMostOne_updateOneUpsertLock (r u : String) (ts : Nat) (s_ : LockStore)
    (h : atMostOneLockPer s_) :
    atMostOneLockPer (updateOneUpsertLock r u ts s_) := by
  intro r'
  by_cases hr : r' = r
  · rw [hr, filter_updateOneUpsertLock_self r u ts s_ (h r)]
    simp
  · rw [filter_updateOneUpsertLock_of_ne (fun l => l.record_id = r') r u ts s_
      (decide_eq_false (Ne.symm hr))
      (fun l hl => decide_eq_false (by rw [hl]; exact Ne.symm hr))]
    exact h r'

theorem atMostOne_releaseRecord (rid usr : Option String) (s_ : LockStore)
    (h : atMostOneLockPer s_) : atMostOneLockPer (releaseRecord rid usr s_) := by
  unfold releaseRecord
  split
  · exact atMostOne_filter _ _ h
  · split
    · exact atMostOne_filter _ _ h
    · exact h

theorem atMostOne_lockRecord (r u : String) (now : Nat) (rel : Bool)
    (s_ : LockStore) (h : atMostOneLockPer s_) :
    atMostOneLockPer (lockRecord r u now rel s_) := by
  unfold lockRecord
  apply atMostOne_updateOneUpsertLock
  cases rel
  · exact h
  · exact atMostOne_releaseRecord none (some u) s_ h

theorem atMostOne_tryLockingRecord (r u : String) (now : Nat) (s_ : LockStore)
    (h : atMostOneLockPer s_) :
    atMostOneLockPer (tryLockingRecord r u now s_).2 := by
  unfold tryLockingRecord
  rcases hf : s_.find? (fun l => l.record_id = r) with _ | doc
  · simp only [hf]
    exact atMostOne_lockRecord r u now true s_ h
  · simp only [hf]
    by_cases h1 : doc.user = u
    · simp only [h1, if_true]
      exact atMostOne_lockRecord r u now false s_ h
    · simp only [h1, if_false]
      by_cases h2 : doc.timestamp + lock_duration < now
      · simp only [h2, if_true]
        exact atMostOne_lockRecord r u now true s_ h
      · simp only [h2, if_false]
        exact h

/-- C1.  Lock mutual exclusion: the lock store keeps at most one lock document
per `record_id`, and if `tryLockingRecord(r, A)` succeeds and a different user
`B` calls `tryLockingRecord(r, B)` before A's lock is expired
(`now2 - now1 < lock_duration`), then B's call returns `False` and the lock
store — in particular A's lock entry `{r, A, now1}` — is unchanged. -/
theorem lock_mutual_exclusion (s_ s1 : LockStore) (r A B : String)
    (now1 now2 : Nat)
    (hBA : B ≠ A)
    (hA : tryLockingRecord r A now1 s_ = (true, s1))
    (hfresh : now2 < now1 + lock_duration)
    (hinv : atMostOneLockPer s_) :
    tryLockingRecord r B now2 s1 = (false, s1) ∧
    s1.find? (fun l => l.record_id = r) = some ⟨r, A, now1⟩ ∧
    atMostOneLockPer s1 := by
  have hfind := find?_of_tryLockingRecord_true r A now1 s_ s1 hA
  refine ⟨?_, hfind, ?_⟩
  · unfold tryLockingRecord
    have hu : (⟨r, A, now1⟩ : Lock).user ≠ B := fun hc => hBA hc.symm
    have ht : ¬((⟨r, A, now1⟩ : Lock).timestamp + lock_duration < now2) := by
      simp only [Lock.timestamp]
      omega
    simp only [hfind]
    rw [if_neg hu, if_neg ht]
  · have : s1 = (tryLockingRecord r A now1 s_).2 := by rw [hA]
    rw [this]
    exact atMostOne_tryLockingRecord r A now1 s_ hinv

/-- C1 witness: concrete instantiation with an empty initial lock store,
`A`'s acquisition at time 0 and `B`'s attempt at time 100. -/
theorem lock_mutual_exclusion_witness :
    tryLockingRecord "r" "B" 100 [⟨"r", "A", 0⟩] = (false, [⟨"r", "A", 0⟩]) ∧
    ([⟨"r", "A", 0⟩] : LockStore).find? (fun l => l.record_id = "r") =
      some ⟨"r", "A", 0⟩ ∧
    atMostOneLockPer [⟨"r", "A", 0⟩] :=
  lock_mutual_exclusion [] [⟨"r", "A", 0⟩] "r" "A" "B" 0 100
    (by decide) (by decide) (by decide)
    (by intro r; simp)

theorem atMostOne_singleton (l : Lock) : atMostOneLockPer [l] := by
  intro r
  by_cases h : l.record_id = r
  · simp [List.filter_cons, h]
  · simp [List.filter_cons, h]

/-- C2 counterexample: with A's lock taken at `t = 0`, a different user B calling
at `now = 120 = lock_duration` — exactly the boundary `now - t = LOCK_DURATION`,
at which the claim says the call succeeds — gets `False` back and the lock is
not replaced (the expiry test in the code is strict: `timestamp + 120 < now`). -/
theorem lock_expiry_boundary_counterexample :
    tryLockingRecord "r" "B" lock_duration [⟨"r", "A", 0⟩] =
      (false, [⟨"r", "A", 0⟩]) := by decide

/-- C2 amended: takeover by a different user succeeds only for
`now - t > LOCK_DURATION` (strictly); then the lock is fully replaced so that B
is the new (sole) holder.  For every `now - t ≤ LOCK_DURATION` — in particular
at the exact boundary `now - t = LOCK_DURATION` — the call fails and the lock
store is unchanged. -/
theorem lock_expiry_takeover (s_ : LockStore) (r A B : String) (t : Nat)
    (hBA : B ≠ A)
    (hfind : s_.find? (fun l => l.record_id = r) = some ⟨r, A, t⟩)
    (hinv : atMostOneLockPer s_) :
    (∀ now, t + lock_duration < now →
      (tryLockingRecord r B now s_).1 = true ∧
      (tryLockingRecord r B now s_).2.filter (fun l => l.record_id = r) =
        [⟨r, B, now⟩]) ∧
    (∀ now, now ≤ t + lock_duration →
      tryLockingRecord r B now s_ = (false, s_)) := by
  have hu : (⟨r, A, t⟩ : Lock).user ≠ B := fun hc => hBA hc.symm
  constructor
  · intro now hexp
    have ht : (⟨r, A, t⟩ : Lock).timestamp + lock_duration < now := hexp
    unfold tryLockingRecord
    simp only [hfind, if_neg hu, if_pos ht]
    refine ⟨by trivial, ?_⟩
    unfold lockRecord
    apply filter_updateOneUpsertLock_self
    exact atMostOne_releaseRecord none (some B) s_ hinv r
  · intro now hle
    have ht : ¬((⟨r, A, t⟩ : Lock).timestamp + lock_duration < now) := by
      simp only [Lock.timestamp]
      omega
    unfold tryLockingRecord
    simp only [hfind, if_neg hu, if_neg ht]

/-- C2 witness: the amended takeover behaviour at the concrete store
`[{r, A, 0}]`. -/
theorem lock_expiry_takeover_witness :
    (∀ now, 0 + lock_duration < now →
      (tryLockingRecord "r" "B" now [⟨"r", "A", 0⟩]).1 = true ∧
      (tryLockingRecord "r" "B" now [⟨"r", "A", 0⟩]).2.filter
        (fun l => l.record_id = "r") = [⟨"r", "B", now⟩]) ∧
    (∀ now, now ≤ 0 + lock_duration →
      tryLockingRecord "r" "B" now [⟨"r", "A", 0⟩] =
        (false, [⟨"r", "A", 0⟩])) :=
  lock_expiry_takeover [⟨"r", "A", 0⟩] "r" "A" "B" 0
    (by decide) (by decide) (atMostOne_singleton _)

theorem mem_updateOneUpsertLock {x : Lock} (r u : String) (ts : Nat)
    (s_ : LockStore) (h : x ∈ updateOneUpsertLock r u ts s_) :
    x = ⟨r, u, ts⟩ ∨ x ∈ s_ := by
  induction s_ with
  | nil => simpa [updateOneUpsertLock] using h
  | cons l rest ih =>
    by_cases hl : l.record_id = r
    · simp only [updateOneUpsertLock, if_pos hl] at h
      rcases List.mem_cons.mp h with h1 | h1
      · exact Or.inl h1
      · exact Or.inr (List.mem_cons_of_mem _ h1)
    · simp only [updateOneUpsertLock, if_neg hl] at h
      rcases List.mem_cons.mp h with h1 | h1
      · exact Or.inr (h1 ▸ List.mem_cons_self _ _)
      · rcases ih h1 with h2 | h2
        · exact Or.inl h2
        · exact Or.inr (List.mem_cons_of_mem _ h2)

/-- C3.  Single lock per user: if `U` (with a non-empty email, the only kind the
authentication layer produces) holds the sole lock on `R1` and successfully
acquires a *new* lock on a different record `R2` (either unlocked, or held by
another user whose lock is expired), then every lock `U` held is first released,
so a subsequent `tryLockingRecord(R1, V)` by any user succeeds immediately;
in the re-entrant case (`U` re-locks a record it already holds) the other locks
of `U` are untouched. -/
theorem single_lock_per_user (s_ : LockStore) (R1 R2 U V : String)
    (t1 now now' : Nat)
    (hne : R2 ≠ R1) (hU : U ≠ "")
    (hheld : s_.filter (fun l => l.record_id = R1) = [⟨R1, U, t1⟩]) :
    ((s_.find? (fun l => l.record_id = R2) = none ∨
      (∃ doc : Lock, s_.find? (fun l => l.record_id = R2) = some doc ∧
        doc.user ≠ U ∧ doc.timestamp + lock_duration < now)) →
      (tryLockingRecord R2 U now s_).1 = true ∧
      (tryLockingRecord R1 V now' (tryLockingRecord R2 U now s_).2).1 = true) ∧
    (∀ doc : Lock,
      s_.find? (fun l => l.record_id = R2) = some doc → doc.user = U →
      (tryLockingRecord R2 U now s_).1 = true ∧
      (tryLockingRecord R2 U now s_).2.filter (fun l => l.record_id = R1) =
        s_.filter (fun l => l.record_id = R1)) := by
  constructor
  · intro hnew
    have hres : tryLockingRecord R2 U now s_ =
        (true, lockRecord R2 U now true s_) := by
      rcases hnew with hf | ⟨doc, hf, hdu, hexp⟩
      · unfold tryLockingRecord
        simp only [hf]
      · unfold tryLockingRecord
        simp only [hf, if_neg hdu, if_pos hexp]
    rw [hres]
    refine ⟨rfl, ?_⟩
    show (tryLockingRecord R1 V now' (lockRecord R2 U now true s_)).1 = true
    have hrel : releaseRecord none (some U) s_ =
        s_.filter (fun l => l.user ≠ U) := by
      unfold releaseRecord pyTruthyStr
      simp [hU]
    have hnone : (lockRecord R2 U now true s_).find?
        (fun l => l.record_id = R1) = none := by
      rw [List.find?_eq_none]
      intro x hx
      unfold lockRecord at hx
      rw [hrel] at hx
      rcases mem_updateOneUpsertLock R2 U now _ hx with h1 | h1
      · rw [h1]
        simpa using hne
      · rcases List.mem_filter.mp h1 with ⟨hx2, hpx⟩
        simp only [decide_eq_true_eq] at hpx ⊢
        intro hR1
        have hmem : x ∈ s_.filter (fun l => l.record_id = R1) :=
          List.mem_filter.mpr ⟨hx2, by simpa using hR1⟩
        rw [hheld] at hmem
        have hxU : x.user = U := by
          rcases List.mem_singleton.mp hmem with rfl
          rfl
        exact hpx hxU
    unfold tryLockingRecord
    simp only [hnone]
  · intro doc hf hdu
    have hres : tryLockingRecord R2 U now s_ =
        (true, lockRecord R2 U now false s_) := by
      unfold tryLockingRecord
      simp only [hf, if_pos hdu]
    rw [hres]
    refine ⟨rfl, ?_⟩
    show (updateOneUpsertLock R2 U now s_).filter (fun l => l.record_id = R1) =
      s_.filter (fun l => l.record_id = R1)
    exact filter_updateOneUpsertLock_of_ne _ R2 U now s_
      (decide_eq_false (by simpa using hne))
      (fun l hl => decide_eq_false (by rw [hl]; simpa using hne))

/-- C3 witness: `U` holds the sole lock on `R1`; `R2` is unlocked; the new
acquisition releases `R1` and `V`'s subsequent attempt succeeds. -/
theorem single_lock_per_user_witness :
    ((([⟨"R1", "U", 5⟩] : LockStore).find? (fun l => l.record_id = "R2") = none ∨
      (∃ doc : Lock, ([⟨"R1", "U", 5⟩] : LockStore).find?
          (fun l => l.record_id = "R2") = some doc ∧
        doc.user ≠ "U" ∧ doc.timestamp + lock_duration < 6)) →
      (tryLockingRecord "R2" "U" 6 [⟨"R1", "U", 5⟩]).1 = true ∧
      (tryLockingRecord "R1" "V" 7
        (tryLockingRecord "R2" "U" 6 [⟨"R1", "U", 5⟩]).2).1 = true) ∧
    (∀ doc : Lock,
      ([⟨"R1", "U", 5⟩] : LockStore).find? (fun l => l.record_id = "R2") =
          some doc → doc.user = "U" →
      (tryLockingRecord "R2" "U" 6 [⟨"R1", "U", 5⟩]).1 = true ∧
      (tryLockingRecord "R2" "U" 6 [⟨"R1", "U", 5⟩]).2.filter
          (fun l => l.record_id = "R1") =
        ([⟨"R1", "U", 5⟩] : LockStore).filter (fun l => l.record_id = "R1")) :=
  single_lock_per_user [⟨"R1", "U", 5⟩] "R1" "R2" "U" "V" 5 6 7
    (by decide) (by decide) (by decide)

@[simp] theorem attr_core_mk (c : AttrCore) (s_ : Option (List Attribute)) :
    (Attribute.mk c s_).core = c := rfl

@[simp] theorem attr_subattributes_mk (c : AttrCore)
    (s_ : Option (List Attribute)) : (Attribute.mk c s_).subattributes = s_ := rfl

@[simp] theorem procattr_core_mk (c : ProcAttrCore)
    (s_ : Option (List ProcessorAttribute)) :
    (ProcessorAttribute.mk c s_).core = c := rfl

@[simp] theorem procattr_subattributes_mk (c : ProcAttrCore)
    (s_ : Option (List ProcessorAttribute)) :
    (ProcessorAttribute.mk c s_).subattributes = s_ := rfl

/-- C4.  Cleaning postcondition: where the attribute's schema entry names a
registered cleaning function, a successful application rewrites `value` and
`normalized_value` to the result, stashes the prior value in `uncleaned_value`,
sets `cleaned=True`, `cleaning_error=False` and stamps `last_cleaned`; a
raising application leaves `value` untouched, records the message in
`cleaning_error` and sets `cleaned=False`.  The failure never propagates: in
`cleanRecords` each attribute of a document is processed independently, so the
other attributes are still cleaned and the document is still produced for the
bulk write. -/
theorem cleaning_postcondition (reg : CleanReg) (now : Nat) (pa : SchemaDict)
    (a : Attribute) (k : Option String) (entry : ProcessorAttribute)
    (name : String) (f : Val → Except String Val)
    (hs : dictGet pa (match k with | some key => key | none => a.core.key) =
      some entry)
    (hname : entry.core.cleaning_function = some name)
    (hne : name ≠ "")
    (hf : reg name = some f) :
    (∀ v, f a.core.value = .ok v →
      ((cleanRecordAttribute reg now pa a k).1.core.value = v ∧
       (cleanRecordAttribute reg now pa a k).1.core.normalized_value = v ∧
       (cleanRecordAttribute reg now pa a k).1.core.uncleaned_value =
         some a.core.value ∧
       (cleanRecordAttribute reg now pa a k).1.core.cleaned = some true ∧
       (cleanRecordAttribute reg now pa a k).1.core.cleaning_error =
         some (.bool false) ∧
       (cleanRecordAttribute reg now pa a k).1.core.last_cleaned =
         some (.int now))) ∧
    (∀ e, f a.core.value = .error e →
      ((cleanRecordAttribute reg now pa a k).1.core.value = a.core.value ∧
       (cleanRecordAttribute reg now pa a k).1.core.cleaning_error =
         some (.str e) ∧
       (cleanRecordAttribute reg now pa a k).1.core.cleaned = some false)) ∧
    (∀ (doc : RecordDoc) (i : Nat) (hi : i < doc.attributesList.length)
      (d : RecordDoc), cleanRecords reg now pa [doc] = [d] →
      ∃ hi' : i < d.attributesList.length,
        d.attributesList.get ⟨i, hi'⟩ =
          (cleanRecordAttribute reg now pa (doc.attributesList.get ⟨i, hi⟩)
            none).1) := by
  obtain ⟨core, subsOpt⟩ := a
  simp only [attr_core_mk] at hs ⊢
  refine ⟨?_, ?_, ?_⟩
  · intro v hv
    cases k <;> (unfold cleanRecordAttribute; simp [hs, hname, hne, hf, hv])
  · intro e he
    cases k <;> cases subsOpt <;>
      (unfold cleanRecordAttribute; simp [hs, hname, hne, hf, he])
  · intro doc i hi d hd
    simp only [cleanRecords, List.map_cons, List.map_nil] at hd
    injection hd with h1 h2
    subst h1
    refine ⟨by simpa using hi, ?_⟩
    simp

/-- C4 witness: the postcondition at the concrete registry/schema/attribute,
with the successful function `ok_fn`. -/
theorem cleaning_postcondition_witness :
    (∀ v, (Except.ok (Val.str "OK") : Except String Val) = .ok v →
      ((cleanRecordAttribute regW 7 paW attrW none).1.core.value = v ∧
       (cleanRecordAttribute regW 7 paW attrW none).1.core.normalized_value = v ∧
       (cleanRecordAttribute regW 7 paW attrW none).1.core.uncleaned_value =
         some attrW.core.value ∧
       (cleanRecordAttribute regW 7 paW attrW none).1.core.cleaned = some true ∧
       (cleanRecordAttribute regW 7 paW attrW none).1.core.cleaning_error =
         some (.bool false) ∧
       (cleanRecordAttribute regW 7 paW attrW none).1.core.last_cleaned =
         some (.int 7))) ∧
    (∀ e, (Except.ok (Val.str "OK") : Except String Val) = .error e →
      ((cleanRecordAttribute regW 7 paW attrW none).1.core.value =
         attrW.core.value ∧
       (cleanRecordAttribute regW 7 paW attrW none).1.core.cleaning_error =
         some (.str e) ∧
       (cleanRecordAttribute regW 7 paW attrW none).1.core.cleaned =
         some false)) ∧
    (∀ (doc : RecordDoc) (i : Nat) (hi : i < doc.attributesList.length)
      (d : RecordDoc), cleanRecords regW 7 paW [doc] = [d] →
      ∃ hi' : i < d.attributesList.length,
        d.attributesList.get ⟨i, hi'⟩ =
          (cleanRecordAttribute regW 7 paW (doc.attributesList.get ⟨i, hi⟩)
            none).1) :=
  cleaning_postcondition regW 7 paW attrW none entryW "ok_fn"
    (fun _ => .ok (.str "OK")) rfl rfl (by decide) rfl

/-- C5 counterexample: the top-level attribute `k` has a registered cleaning
function that succeeds, and its subattribute `s` has a configured cleaning
function under the composite key `"k::s"` that would rewrite its value to
`"OK"` — yet cleaning the top-level attribute returns the subattribute list
untouched (value still `"v"`, no `cleaned` mark), because the success path
returns before the subattribute recursion. -/
theorem recursive_subattr_cleaning_counterexample :
    (cleanRecordAttribute regW 7 paC5 topC5 none).2 = true ∧
    (cleanRecordAttribute regW 7 paC5 topC5 none).1.subattributes =
      some [subC5] ∧
    subC5.core.value = Val.str "v" ∧
    subC5.core.cleaned = none ∧
    dictGet paC5 "k::s" = some entrySubC5 ∧
    entrySubC5.core.cleaning_function = some "ok_fn" ∧
    regW "ok_fn" = some (fun _ => .ok (.str "OK")) ∧
    Val.str "v" ≠ Val.str "OK" :=
  ⟨rfl, rfl, rfl, rfl, rfl, rfl, rfl, by decide⟩

/-- C5 amended: subattributes are cleaned (each with the composite key
`"<parentKey>::<subKey>"`) only on the fall-through paths of
`cleanRecordAttribute` — configured cleaning-function name that is unregistered,
or whose application raises.  When the top-level clean succeeds, or no cleaning
function is configured (absent or empty name), the subattribute recursion is
skipped and the subattribute list is returned untouched. -/
theorem recursive_subattr_cleaning (reg : CleanReg) (now : Nat)
    (pa : SchemaDict) (core : AttrCore) (subs : List Attribute)
    (entry : ProcessorAttribute)
    (hs : dictGet pa core.key = some entry) :
    (∀ name, entry.core.cleaning_function = some name → name ≠ "" →
      reg name = none →
      (cleanRecordAttribute reg now pa (.mk core (some subs))
        none).1.subattributes = some (cleanSubList reg now pa core.key subs)) ∧
    (∀ name f e, entry.core.cleaning_function = some name → name ≠ "" →
      reg name = some f → f core.value = .error e →
      (cleanRecordAttribute reg now pa (.mk core (some subs))
        none).1.subattributes = some (cleanSubList reg now pa core.key subs)) ∧
    (∀ name f v, entry.core.cleaning_function = some name → name ≠ "" →
      reg name = some f → f core.value = .ok v →
      (cleanRecordAttribute reg now pa (.mk core (some subs))
        none).1.subattributes = some subs) ∧
    (entry.core.cleaning_function = none →
      (cleanRecordAttribute reg now pa (.mk core (some subs))
        none).1.subattributes = some subs) ∧
    (entry.core.cleaning_function = some "" →
      (cleanRecordAttribute reg now pa (.mk core (some subs))
        none).1.subattributes = some subs) ∧
    (cleanSubList reg now pa core.key subs =
      subs.map (fun sub => (cleanRecordAttribute reg now pa sub
        (some (core.key ++ "::" ++ sub.core.key))).1)) := by
  refine ⟨?_, ?_, ?_, ?_, ?_, ?_⟩
  · intro name hname hne hr
    unfold cleanRecordAttribute
    simp [hs, hname, hne, hr]
  · intro name f e hname hne hr he
    unfold cleanRecordAttribute
    simp [hs, hname, hne, hr, he]
  · intro name f v hname hne hr hv
    unfold cleanRecordAttribute
    simp [hs, hname, hne, hr, hv]
  · intro hname
    unfold cleanRecordAttribute
    simp [hs, hname]
  · intro hname
    unfold cleanRecordAttribute
    simp [hs, hname]
  · induction subs with
    | nil => rfl
    | cons sub rest ih =>
      unfold cleanSubList
      rw [List.map_cons, ih]

/-- C5 witness: the amended behaviour at the concrete schema of the
counterexample (a raising registered function exercises the fall-through
path). -/
theorem recursive_subattr_cleaning_witness :
    (∀ name, entryTopC5.core.cleaning_function = some name → name ≠ "" →
      regW name = none →
      (cleanRecordAttribute regW 7 paC5 (.mk coreW (some [subC5]))
        none).1.subattributes =
        some (cleanSubList regW 7 paC5 coreW.key [subC5])) ∧
    (∀ name f e, entryTopC5.core.cleaning_function = some name → name ≠ "" →
      regW name = some f → f coreW.value = .error e →
      (cleanRecordAttribute regW 7 paC5 (.mk coreW (some [subC5]))
        none).1.subattributes =
        some (cleanSubList regW 7 paC5 coreW.key [subC5])) ∧
    (∀ name f v, entryTopC5.core.cleaning_function = some name → name ≠ "" →
      regW name = some f → f coreW.value = .ok v →
      (cleanRecordAttribute regW 7 paC5 (.mk coreW (some [subC5]))
        none).1.subattributes = some [subC5]) ∧
    (entryTopC5.core.cleaning_function = none →
      (cleanRecordAttribute regW 7 paC5 (.mk coreW (some [subC5]))
        none).1.subattributes = some [subC5]) ∧
    (entryTopC5.core.cleaning_function = some "" →
      (cleanRecordAttribute regW 7 paC5 (.mk coreW (some [subC5]))
        none).1.subattributes = some [subC5]) ∧
    (cleanSubList regW 7 paC5 coreW.key [subC5] =
      [subC5].map (fun sub => (cleanRecordAttribute regW 7 paC5 sub
        (some (coreW.key ++ "::" ++ sub.core.key))).1)) :=
  recursive_subattr_cleaning regW 7 paC5 coreW [subC5] entryTopC5 rfl

theorem mem_insertSorted (le : ProcessorAttribute → ProcessorAttribute → Bool)
    (x a : ProcessorAttribute) (l : List ProcessorAttribute) :
    a ∈ insertSorted le x l ↔ a = x ∨ a ∈ l := by
  induction l with
  | nil => simp [insertSorted]
  | cons y rest ih =>
    by_cases h : le x y
    · simp [insertSorted, h]
    · simp only [insertSorted, if_neg h, List.mem_cons, ih]
      tauto

theorem mem_stableSort (le : ProcessorAttribute → ProcessorAttribute → Bool)
    (a : ProcessorAttribute) (l : List ProcessorAttribute) :
    a ∈ stableSort le l ↔ a ∈ l := by
  induction l with
  | nil => simp [stableSort]
  | cons x rest ih => simp [stableSort, mem_insertSorted, ih]

theorem length_insertSorted
    (le : ProcessorAttribute → ProcessorAttribute → Bool)
    (x : ProcessorAttribute) (l : List ProcessorAttribute) :
    (insertSorted le x l).length = l.length + 1 := by
  induction l with
  | nil => rfl
  | cons y rest ih =>
    by_cases h : le x y
    · simp [insertSorted, h]
    · simp [insertSorted, h, ih]

theorem length_stableSort (le : ProcessorAttribute → ProcessorAttribute → Bool)
    (l : List ProcessorAttribute) : (stableSort le l).length = l.length := by
  induction l with
  | nil => rfl
  | cons x rest ih => simp [stableSort, length_insertSorted, ih]

theorem foldl_sortStep_snd_true (attrs : List Attribute)
    (l : List ProcessorAttribute) (acc : List Attribute × Bool)
    (h : acc.2 = true) : (l.foldl (sortStep attrs) acc).2 = true := by
  induction l generalizing acc with
  | nil => simpa using h
  | cons e rest ih =>
    apply ih
    unfold sortStep
    by_cases h1 : noCompositeKey e.core.name
    · by_cases h2 :
        (attrs.filter (fun item => item.core.key = e.core.name)).length = 0
      · simp [h1, h2]
      · simp [h1, h2, h]
    · simpa [h1] using h

theorem mem_foldl_sortStep (attrs : List Attribute)
    (l : List ProcessorAttribute) (acc : List Attribute × Bool) (x : Attribute)
    (hx : x ∈ acc.1) : x ∈ (l.foldl (sortStep attrs) acc).1 := by
  induction l generalizing acc with
  | nil => simpa using hx
  | cons e rest ih =>
    apply ih
    unfold sortStep
    by_cases h1 : noCompositeKey e.core.name
    · by_cases h2 :
        (attrs.filter (fun item => item.core.key = e.core.name)).length = 0
      · simp only [h1, if_true, h2, if_pos]
        exact List.mem_append_left _ hx
      · simp only [h1, if_true, h2, if_neg, ite_false]
        exact List.mem_append_left _ hx
    · simpa [h1] using hx

theorem placeholder_mem_foldl (attrs : List Attribute)
    (l : List ProcessorAttribute) (acc : List Attribute × Bool)
    (e : ProcessorAttribute) (he : e ∈ l)
    (hnc : noCompositeKey e.core.name = true)
    (hmiss : attrs.filter (fun item => item.core.key = e.core.name) = []) :
    createNewAttribute e.core.name .null .null none .null .null .null .null
      .null ∈ (l.foldl (sortStep attrs) acc).1 := by
  induction l generalizing acc with
  | nil => cases he
  | cons y rest ih =>
    rcases List.mem_cons.mp he with h | h
    · rw [List.foldl_cons]
      apply mem_foldl_sortStep
      rw [← h]
      unfold sortStep
      simp [hnc, hmiss]
    · rw [List.foldl_cons]
      exact ih _ h

/-- C6 counterexample: with a schema holding one attribute `a` and an empty
record attribute list — so the schema-defined key `a` is missing — the
synthesized placeholder has *no* `cleaned` entry at all
(`createNewAttribute` writes no `cleaned` key), rather than `cleaned=False`
as the claim states. -/
theorem schema_reconciliation_counterexample :
    (sortRecordAttributes []
      (some ⟨some [.mk
        { name := "a"
          page_order_sort := some 1
          cleaning_function := none } none]⟩) false).2 = true ∧
    ((sortRecordAttributes []
      (some ⟨some [.mk
        { name := "a"
          page_order_sort := some 1
          cleaning_function := none } none]⟩) false).1.map
        (fun a => a.core.cleaned)) = [none] ∧
    (none : Option Bool) ≠ some false :=
  ⟨rfl, rfl, by decide⟩

/-- C6 amended: for every record attribute list missing a schema-defined
(non-composite) key, `sortRecordAttributes` returns a list containing a
synthesized placeholder for that key — with `None` value, `edited=False` and
*no* `cleaned` key (rather than `cleaned=False`) — and
`requires_db_update=True`.  (The flag is initialized to `True` whenever the
schema is non-empty, so it is `True` in particular when synthesis occurred.) -/
theorem schema_reconciliation (attrs : List Attribute)
    (pa0 : List ProcessorAttribute) (keep : Bool) (e : ProcessorAttribute)
    (he : e ∈ pa0) (hnc : noCompositeKey e.core.name = true)
    (hmiss : attrs.filter (fun item => item.core.key = e.core.name) = []) :
    createNewAttribute e.core.name .null .null none .null .null .null .null
      .null ∈ (sortRecordAttributes attrs (some ⟨some pa0⟩) keep).1 ∧
    (sortRecordAttributes attrs (some ⟨some pa0⟩) keep).2 = true ∧
    (createNewAttribute e.core.name .null .null none .null .null .null .null
      .null).core.value = .null ∧
    (createNewAttribute e.core.name .null .null none .null .null .null .null
      .null).core.cleaned = none ∧
    (createNewAttribute e.core.name .null .null none .null .null .null .null
      .null).core.edited = false := by
  have he' : e ∈ stableSort pageOrderLe pa0 := (mem_stableSort _ _ _).mpr he
  have hlen : 0 < (stableSort pageOrderLe pa0).length := by
    rw [length_stableSort]
    exact List.length_pos.mpr (List.ne_nil_of_mem he)
  refine ⟨?_, ?_, rfl, rfl, rfl⟩
  · unfold sortRecordAttributes
    have hmem := placeholder_mem_foldl attrs (stableSort pageOrderLe pa0)
      ([], decide ((stableSort pageOrderLe pa0).length > 0)) e he' hnc hmiss
    cases keep <;> simp only [ite_false, ite_true]
    · exact hmem
    · exact List.mem_append_left _ hmem
  · unfold sortRecordAttributes
    have hsnd := foldl_sortStep_snd_true attrs (stableSort pageOrderLe pa0)
      ([], decide ((stableSort pageOrderLe pa0).length > 0))
      (by simpa using hlen)
    cases keep <;> simp only [ite_false, ite_true]
    · exact hsnd
    · exact hsnd

/-- C6 witness: the amended reconciliation at a concrete schema (one key `a`)
and an empty record attribute list. -/
theorem schema_reconciliation_witness :
    createNewAttribute (ProcessorAttribute.mk
      { name := "a"
        page_order_sort := some 1
        cleaning_function := none } none).core.name .null .null none .null
      .null .null .null .null ∈
      (sortRecordAttributes []
        (some ⟨some [.mk
          { name := "a"
            page_order_sort := some 1
            cleaning_function := none } none]⟩) false).1 ∧
    (sortRecordAttributes []
      (some ⟨some [.mk
        { name := "a"
          page_order_sort := some 1
          cleaning_function := none } none]⟩) false).2 = true ∧
    (createNewAttribute (ProcessorAttribute.mk
      { name := "a"
        page_order_sort := some 1
        cleaning_function := none } none).core.name .null .null none .null
      .null .null .null .null).core.value = .null ∧
    (createNewAttribute (ProcessorAttribute.mk
      { name := "a"
        page_order_sort := some 1
        cleaning_function := none } none).core.name .null .null none .null
      .null .null .null .null).core.cleaned = none ∧
    (createNewAttribute (ProcessorAttribute.mk
      { name := "a"
        page_order_sort := some 1
        cleaning_function := none } none).core.name .null .null none .null
      .null .null .null .null).core.edited = false :=
  schema_reconciliation [] [.mk
    { name := "a"
      page_order_sort := some 1
      cleaning_function := none } none] false
    (.mk { name := "a"
           page_order_sort := some 1
           cleaning_function := none } none)
    (List.mem_singleton.mpr rfl) (by decide) rfl

theorem resetSubattribute_fields (a : Attribute) :
    (resetSubattribute a).core.value = (resetSubattribute a).core.raw_text ∧
    (resetSubattribute a).core.confidence =
      (resetSubattribute a).core.ai_confidence ∧
    (resetSubattribute a).core.edited = false ∧
    (resetSubattribute a).core.cleaned = some false ∧
    (resetSubattribute a).core.cleaning_error = some (.bool false) ∧
    (resetSubattribute a).core.uncleaned_value = some .null ∧
    (resetSubattribute a).core.last_cleaned = some .null := by
  simp [resetSubattribute]

theorem resetAttribute_fields (a : Attribute) :
    (resetAttribute a).core.value = (resetAttribute a).core.raw_text ∧
    (resetAttribute a).core.confidence =
      (resetAttribute a).core.ai_confidence ∧
    (resetAttribute a).core.edited = false ∧
    (resetAttribute a).core.cleaned = some false ∧
    (resetAttribute a).core.cleaning_error = some (.bool false) ∧
    (resetAttribute a).core.uncleaned_value = some .null ∧
    (resetAttribute a).core.last_cleaned = some .null ∧
    (∀ subs, (resetAttribute a).subattributes = some subs →
      ∀ sb ∈ subs,
        sb.core.value = sb.core.raw_text ∧
        sb.core.confidence = sb.core.ai_confidence ∧
        sb.core.edited = false ∧
        sb.core.cleaned = some false ∧
        sb.core.cleaning_error = some (.bool false) ∧
        sb.core.uncleaned_value = some .null ∧
        sb.core.last_cleaned = some .null) := by
  rcases hS : a.subattributes with _ | subs0
  · unfold resetAttribute
    rw [hS]
    simp
  · unfold resetAttribute
    rw [hS]
    refine ⟨rfl, rfl, rfl, rfl, rfl, rfl, rfl, ?_⟩
    intro subs hsubs sb hsb
    simp only [attr_subattributes_mk] at hsubs
    injection hsubs with hsubs
    rw [← hsubs] at hsb
    rcases List.mem_map.mp hsb with ⟨x, _, rfl⟩
    exact resetSubattribute_fields x

theorem applyFieldToClean_review_status (reg : CleanReg) (now : Nat) (db : DB)
    (record_id : String) (nd : NewData) (f : FieldToClean) (nd1 : NewData)
    (h : applyFieldToClean reg now db record_id nd f = .ok nd1) :
    nd1.review_status = nd.review_status := by
  unfold applyFieldToClean at h
  rcases hA : nd.attributesList with _ | attrs <;> simp only [hA] at h
  · cases h
  · rcases hT : attrs.get? f.topLevelIndex with _ | topAttr <;>
      simp only [hT] at h
    · cases h
    · by_cases hSub : f.isSubattribute
      · rw [if_pos hSub] at h
        rcases hS : topAttr.subattributes with _ | subs <;>
          simp only [hS] at h
        · cases h
        · rcases hI : subs.get? f.subIndex with _ | subAttr <;>
            simp only [hI] at h
          · cases h
          · rcases hc : cleanAttribute reg now db subAttr (some record_id) none
              with e | c <;> simp only [hc, Except.map] at h
            · cases h
            · injection h with h
              rw [← h]
      · rw [if_neg hSub] at h
        rcases hc : cleanAttribute reg now db topAttr (some record_id) none
          with e | c <;> simp only [hc, Except.map] at h
        · cases h
        · injection h with h
          rw [← h]

theorem cleanStep_review_status (reg : CleanReg) (now : Nat) (db : DB)
    (record_id : String) (nd : NewData) (ftc : Option FieldToClean)
    (nd1 : NewData)
    (h : updateRecordCleanStep reg now db record_id nd ftc = .ok nd1) :
    nd1.review_status = nd.review_status := by
  cases ftc with
  | none =>
    unfold updateRecordCleanStep at h
    injection h with h
    rw [← h]
  | some f =>
    exact applyFieldToClean_review_status reg now db record_id nd f nd1 h

/-- C7.  Reset round-trip: an `updateRecord` call with
`update_type="review_status"` and new `review_status="unreviewed"` (holding the
lock, and completing normally) writes exactly the `resetRecord` update: for
every attribute and every subattribute of the supplied `attributesList`,
`value == raw_text` and `confidence == ai_confidence`, with `edited`,
`cleaned`, `cleaning_error`, `uncleaned_value` and `last_cleaned` cleared, and
`verification_status` set to `None` — regardless of prior `edited`/`cleaned`
state. -/
theorem reset_round_trip (reg : CleanReg) (db : DB) (record_id user : String)
    (nd nd1 : NewData) (ftc : Option FieldToClean) (now : Nat)
    (attrs : List Attribute)
    (hlock : (tryLockingRecord record_id user now db.locked_records).1 = true)
    (hclean : updateRecordCleanStep reg now
      { db with locked_records :=
        (tryLockingRecord record_id user now db.locked_records).2 }
      record_id nd ftc = .ok nd1)
    (hrs : nd.review_status = some "unreviewed")
    (hattrs : nd1.attributesList = some attrs) :
    ∃ du : DataUpdate,
      (updateRecord reg db record_id nd (some "review_status") ftc (some user)
        false now).1 = .ok (some (.fields du)) ∧
      du.review_status = some (some "unreviewed") ∧
      du.verification_status = some (some .null) ∧
      du.attributesList = some (some (attrs.map resetAttribute)) ∧
      (∀ b ∈ attrs.map resetAttribute,
        b.core.value = b.core.raw_text ∧
        b.core.confidence = b.core.ai_confidence ∧
        b.core.edited = false ∧
        b.core.cleaned = some false ∧
        b.core.cleaning_error = some (.bool false) ∧
        b.core.uncleaned_value = some .null ∧
        b.core.last_cleaned = some .null ∧
        (∀ subs, b.subattributes = some subs →
          ∀ sb ∈ subs,
            sb.core.value = sb.core.raw_text ∧
            sb.core.confidence = sb.core.ai_confidence ∧
            sb.core.edited = false ∧
            sb.core.cleaned = some false ∧
            sb.core.cleaning_error = some (.bool false) ∧
            sb.core.uncleaned_value = some .null ∧
            sb.core.last_cleaned = some .null)) ∧
      (updateRecord reg db record_id nd (some "review_status") ftc (some user)
        false now).2.records =
        updateOneRecord record_id (.fields du) db.records := by
  have hrs1 : nd1.review_status = some "unreviewed" := by
    rw [cleanStep_review_status reg now _ record_id nd ftc nd1 hclean, hrs]
  have hArv : ¬(("review_status" : String) = "attributesList" ∧
      nd1.review_status = some "unreviewed") := fun h => by
    have := h.1
    simp at this
  have hVrv : ¬(("review_status" : String) = "verification_status" ∧
      pyTruthyStr nd1.review_status = true) := fun h => by
    have := h.1
    simp at this
  have hRrv : ("review_status" : String) = "review_status" ∧
      nd1.review_status = some "unreviewed" := ⟨rfl, hrs1⟩
  have hreset : resetRecord nd1 = .ok
      { review_status := some (some "unreviewed")
        attributesList := some (some (attrs.map resetAttribute))
        verification_status := some (some .null)
        defective_categories := none
        defective_description := none
        other_key := none } := by
    unfold resetRecord
    rw [hattrs]
  refine ⟨{ review_status := some (some "unreviewed")
            attributesList := some (some (attrs.map resetAttribute))
            verification_status := some (some .null)
            defective_categories := none
            defective_description := none
            other_key := none }, ?_, rfl, rfl, rfl, ?_, ?_⟩
  · unfold updateRecord
    rw [if_neg (by simp)]
    simp only [hlock, Bool.true_or, if_true]
    rw [if_neg (by decide)]
    rw [hclean]
    simp only [if_neg hArv, if_neg hVrv, if_pos hRrv]
    rw [hreset]
    rw [if_pos (show True ∧ nd1.review_status = some "unreviewed" from
      ⟨trivial, hrs1⟩)]
  · intro b hb
    rcases List.mem_map.mp hb with ⟨x, _, rfl⟩
    exact resetAttribute_fields x
  · unfold updateRecord
    rw [if_neg (by simp)]
    simp only [hlock, Bool.true_or, if_true]
    rw [if_neg (by decide)]
    rw [hclean]
    simp only [if_neg hArv, if_neg hVrv, if_pos hRrv]
    rw [hreset]
    rw [if_pos (show True ∧ nd1.review_status = some "unreviewed" from
      ⟨trivial, hrs1⟩)]

theorem filter_user_other_lockRecord (r u : String) (now : Nat)
    (s_ : LockStore) (hU : u ≠ "") :
    (lockRecord r u now true s_).filter
      (fun l => l.user = u ∧ l.record_id ≠ r) = [] := by
  have hrel : releaseRecord none (some u) s_ =
      s_.filter (fun l => l.user ≠ u) := by
    unfold releaseRecord pyTruthyStr
    simp [hU]
  unfold lockRecord
  rw [if_pos rfl, hrel]
  rw [List.filter_eq_nil_iff]
  intro x hx
  rcases mem_updateOneUpsertLock r u now _ hx with h1 | h1
  · rw [h1]
    simp
  · have hmem := List.mem_filter.mp h1
    simp only [decide_eq_true_eq] at hmem ⊢
    rintro ⟨h2, _⟩
    exact hmem.2 h2

/-- C9.  Non-leaking not-found / access-denied: `fetchRecordData` returns the
same `(None, None)` — with the database untouched, in particular no lock
attempt — both when the record does not exist and when it exists but its
record group is outside the requesting user's accessible record groups, so a
caller cannot tell a denied record from a missing one. -/
theorem fetch_non_leaking (db : DB) (user record_id : String) (now : Nat) :
    (db.records.find? (fun r => r.id = record_id) = none →
      fetchRecordData db user record_id now = .ok ((none, none), db)) ∧
    (∀ doc : RecordDoc,
      db.records.find? (fun r => r.id = record_id) = some doc →
      doc.record_group_id ∉ db.user_record_groups user →
      fetchRecordData db user record_id now = .ok ((none, none), db)) := by
  constructor
  · intro h
    unfold fetchRecordData
    simp only [h]
  · intro doc h hdenied
    unfold fetchRecordData
    simp only [h]
    rw [if_pos hdenied]

/-- C9 witness: the concrete database `dbC9` (one record `r1` in group `g1`,
user with access only to `other_group`). -/
theorem fetch_non_leaking_witness :
    (dbC9.records.find? (fun r => r.id = "r1") = none →
      fetchRecordData dbC9 "u" "r1" 5 = .ok ((none, none), dbC9)) ∧
    (∀ doc : RecordDoc,
      dbC9.records.find? (fun r => r.id = "r1") = some doc →
      doc.record_group_id ∉ dbC9.user_record_groups "u" →
      fetchRecordData dbC9 "u" "r1" 5 = .ok ((none, none), dbC9)) :=
  fetch_non_leaking dbC9 "u" "r1" 5

/-- C10.  `updateRecord` with `update_type=None` and a valid user rejects the
update (returns `False`) and writes nothing to the records collection, but the
lock store has already been mutated: `tryLockingRecord` runs before the
`update_type` check, so on an unlocked record the caller's lock is acquired
and every other lock of that user is released. -/
theorem updateRecord_lock_side_effect (reg : CleanReg) (db : DB)
    (record_id user : String) (nd : NewData) (ftc : Option FieldToClean)
    (now : Nat) (hU : user ≠ "") :
    (updateRecord reg db record_id nd none ftc (some user) false now).1 =
      .ok none ∧
    (updateRecord reg db record_id nd none ftc (some user) false
      now).2.records = db.records ∧
    (updateRecord reg db record_id nd none ftc (some user) false
      now).2.locked_records =
      (tryLockingRecord record_id user now db.locked_records).2 ∧
    (db.locked_records.find? (fun l => l.record_id = record_id) = none →
      ((updateRecord reg db record_id nd none ftc (some user) false
        now).2.locked_records.find? (fun l => l.record_id = record_id) =
          some ⟨record_id, user, now⟩ ∧
       (updateRecord reg db record_id nd none ftc (some user) false
        now).2.locked_records.filter
          (fun l => l.user = user ∧ l.record_id ≠ record_id) = [])) := by
  rcases htl : tryLockingRecord record_id user now db.locked_records
    with ⟨b, s'⟩
  have hupd : updateRecord reg db record_id nd none ftc (some user) false now
      = (.ok none, { db with locked_records := s' }) := by
    unfold updateRecord
    rw [if_neg (by simp)]
    simp only [htl]
    cases b <;> simp
  refine ⟨by rw [hupd], by rw [hupd], ?_, ?_⟩
  · rw [hupd]
  intro hfind
  have htrue : tryLockingRecord record_id user now db.locked_records =
      (true, lockRecord record_id user now true db.locked_records) := by
    unfold tryLockingRecord
    simp only [hfind]
  rw [htrue] at htl
  injection htl with _ hs'
  rw [hupd]
  constructor
  · rw [← hs']
    exact find?_lockRecord record_id user now true db.locked_records
  · rw [← hs']
    exact filter_user_other_lockRecord record_id user now db.locked_records hU

/-- C10 witness: empty lock store, record `r1`, user `u`. -/
theorem updateRecord_lock_side_effect_witness :
    (updateRecord regW dbW "r1" ndW none none (some "u") false 5).1 =
      .ok none ∧
    (updateRecord regW dbW "r1" ndW none none (some "u") false
      5).2.records = dbW.records ∧
    (updateRecord regW dbW "r1" ndW none none (some "u") false
      5).2.locked_records =
      (tryLockingRecord "r1" "u" 5 dbW.locked_records).2 ∧
    (dbW.locked_records.find? (fun l => l.record_id = "r1") = none →
      ((updateRecord regW dbW "r1" ndW none none (some "u") false
        5).2.locked_records.find? (fun l => l.record_id = "r1") =
          some ⟨"r1", "u", 5⟩ ∧
       (updateRecord regW dbW "r1" ndW none none (some "u") false
        5).2.locked_records.filter
          (fun l => l.user = "u" ∧ l.record_id ≠ "r1") = [])) :=
  updateRecord_lock_side_effect regW dbW "r1" "u" ndW none 5 (by decide)

/-- C8.  At a concrete, fully-populated database (record `r1` in accessible
group `g1`, whose processor schema has key `a` that the record lacks),
`fetchRecordData` returns a document whose `attributesList` is the whole
`(sorted_attributes, requires_db_update)` *tuple* returned by
`sortRecordAttributes` — not a list of attributes — and, although
`requires_db_update` is `True`, the posterior database carries the records
collection unchanged: the corrected attribute list is never persisted. -/
theorem fetch_attributesList_code_bug :
    fetchRecordData dbC8 "u" "r1" 5 =
      .ok ((some
        { id := "r1"
          record_group_id := "g1"
          review_status := some "unreviewed"
          verification_status := none
          dateCreated := 3
          attributesList := .tupled (sortRecordAttributes [attrB]
            (some ⟨some [entryA]⟩) false)
          rg_name := "G"
          rg_id := "g1" }, some false),
        { dbC8 with locked_records := [⟨"r1", "u", 5⟩] }) ∧
    (sortRecordAttributes [attrB] (some ⟨some [entryA]⟩) false).2 = true ∧
    (∀ l : List Attribute,
      AttrsOut.tupled (sortRecordAttributes [attrB]
        (some ⟨some [entryA]⟩) false) ≠ .plain l) ∧
    ({ dbC8 with locked_records := [⟨"r1", "u", 5⟩] } : DB).records =
      dbC8.records :=
  ⟨rfl, rfl, fun _ h => AttrsOut.noConfusion h, rfl⟩

/-- C7 witness: the reset at a concrete call — record `r1`, user `u`, new
data `ndW` (one attribute, `review_status="unreviewed"`), no field to clean. -/
theorem reset_round_trip_witness :
    ∃ du : DataUpdate,
      (updateRecord regW dbW "r1" ndW (some "review_status") none (some "u")
        false 5).1 = .ok (some (.fields du)) ∧
      du.review_status = some (some "unreviewed") ∧
      du.verification_status = some (some .null) ∧
      du.attributesList = some (some ([attrW].map resetAttribute)) ∧
      (∀ b ∈ [attrW].map resetAttribute,
        b.core.value = b.core.raw_text ∧
        b.core.confidence = b.core.ai_confidence ∧
        b.core.edited = false ∧
        b.core.cleaned = some false ∧
        b.core.cleaning_error = some (.bool false) ∧
        b.core.uncleaned_value = some .null ∧
        b.core.last_cleaned = some .null ∧
        (∀ subs, b.subattributes = some subs →
          ∀ sb ∈ subs,
            sb.core.value = sb.core.raw_text ∧
            sb.core.confidence = sb.core.ai_confidence ∧
            sb.core.edited = false ∧
            sb.core.cleaned = some false ∧
            sb.core.cleaning_error = some (.bool false) ∧
            sb.core.uncleaned_value = some .null ∧
            sb.core.last_cleaned = some .null)) ∧
      (updateRecord regW dbW "r1" ndW (some "review_status") none (some "u")
        false 5).2.records =
        updateOneRecord "r1" (.fields du) dbW.records :=
  reset_round_trip regW dbW "r1" "u" ndW ndW none 5 [attrW]
    rfl rfl rfl rfl

end OWUI

